import Mathlib

/-!
Verification of the RepoX client-side state/render core.

Shallow embedding of the TypeScript sources:
* `src/unnamed/part_003` — application state store (`getState`/`setState`/
  action helpers) and the localStorage-backed gamification progress
  (`getUserProgress`, `addXP`, `completeChallengeSet`, challenge cache).
* `src/unnamed/part_002` — graph visualization's `treeToGraph` traversal.
* `src/src/main.ts` — `handleExplore`, `handleChallengeAnswer`,
  `showChallengeResults`, `saveLearningPath`, `getSavedLearningPath`.
* `src/src/services/github.ts` — `isValidGitHubUrl`, `parseGitHubUrl`.

Modelling conventions: JavaScript numbers that only ever hold integers are
`Int` (or `Nat` for list indices and sizes); `undefined`/`null` are `Option`;
the durable blob store (localStorage) is an association list from keys to
blobs, where a blob is either a well-formed JSON document or unparseable
garbage; `JSON.stringify`/`JSON.parse` are the host collaborator's inverse
pair on JSON documents, so stringify embeds a document into a blob and
parse recovers it (failing exactly on garbage blobs).  Subscriber
invocation is observed through an explicit event log: each invocation of a
listener is one `(listener id, state passed to it)` event.
-/

namespace RepoX

/-! ### File tree data model (`src/src/types/github.ts`, `FileNode`) -/

/-- The `FileNode.type` field: `'file' | 'folder'`. -/
inductive NodeType where
  | file
  | folder
deriving DecidableEq, Repr

/-- The `FileNode` interface: `name`, `path`, `type`, optional `size`,
optional `children` (folders), optional `extension` (files).  The `sha`
field is never read by the embedded functions and is omitted. -/
inductive FileNode where
  | mk (name : String) (path : String) (ntype : NodeType)
       (size : Option Nat) (children : Option (List FileNode))
       (extension : Option String)
deriving Repr

def FileNode.name : FileNode → String
  | .mk n _ _ _ _ _ => n

def FileNode.path : FileNode → String
  | .mk _ p _ _ _ _ => p

def FileNode.ntype : FileNode → NodeType
  | .mk _ _ t _ _ _ => t

def FileNode.size : FileNode → Option Nat
  | .mk _ _ _ s _ _ => s

def FileNode.children : FileNode → Option (List FileNode)
  | .mk _ _ _ _ c _ => c

def FileNode.extension : FileNode → Option String
  | .mk _ _ _ _ _ e => e

/-! ### Graph data (`src/unnamed/part_002`) -/

/-- The `GraphNode`: the data fields captured by `treeToGraph` (the d3
simulation coordinates are added later by the layout engine and are not
part of the conversion). -/
structure GraphNode where
  id : String
  name : String
  path : String
  ntype : NodeType
  extension : Option String
  size : Option Nat
  depth : Nat
  children : Option (List String)
deriving DecidableEq, Repr

/-- The `GraphLink` as pushed by `treeToGraph`: both endpoints are node id
strings at construction time. -/
structure GraphLink where
  source : String
  target : String
deriving DecidableEq, Repr

/-- The two mutable arrays `nodes` and `links` closed over by `traverse`. -/
structure GraphAcc where
  nodes : List GraphNode
  links : List GraphLink
deriving DecidableEq, Repr

mutual

/-- The inner `traverse(node, depth, parentId)` of `treeToGraph`:
```
if (nodes.length >= maxNodes) return;
if (depth > maxDepth && node.type === 'folder') return;
const id = node.path || 'root';
nodes.push(graphNode);
if (parentId) links.push({source: parentId, target: id});
if (node.children) for (const child of node.children) traverse(child, depth+1, id);
```
(the local `nodeMap` is written but never read, so it is dropped). -/
def traverse (maxDepth maxNodes : Nat) (node : FileNode) (depth : Nat)
    (parentId : Option String) (acc : GraphAcc) : GraphAcc :=
  if maxNodes ≤ acc.nodes.length then acc
  else if maxDepth < depth ∧ node.ntype = .folder then acc
  else
    match node with
    | .mk name path ntype size children extension =>
      let id := if path = "" then "root" else path
      let gn : GraphNode :=
        { id := id, name := name, path := path, ntype := ntype
          extension := extension, size := size, depth := depth
          children := children.map (fun cs => cs.map FileNode.path) }
      let acc1 : GraphAcc :=
        { nodes := acc.nodes ++ [gn]
          links := acc.links ++
            (match parentId with
             | some pid => [{ source := pid, target := id }]
             | none => []) }
      match children with
      | none => acc1
      | some cs => traverseChildren maxDepth maxNodes cs (depth + 1) id acc1

/-- The `for (const child of node.children)` loop of `traverse`. -/
def traverseChildren (maxDepth maxNodes : Nat) (cs : List FileNode)
    (depth : Nat) (parentId : String) (acc : GraphAcc) : GraphAcc :=
  match cs with
  | [] => acc
  | c :: rest =>
    traverseChildren maxDepth maxNodes rest depth parentId
      (traverse maxDepth maxNodes c depth (some parentId) acc)

end

/-- The `treeToGraph(root, maxDepth = 3, maxNodes = 150)`. -/
def treeToGraph (root : FileNode) (maxDepth : Nat := 3)
    (maxNodes : Nat := 150) : GraphAcc :=
  traverse maxDepth maxNodes root 0 none { nodes := [], links := [] }

/-! ### Application state store (`src/unnamed/part_003`)

`state` is a module-level mutable variable and `listeners` a `Set` of
callback functions.  We embed the pair as a `Store` value threaded through
the operations; listeners are identified by `Nat` ids, and the effect of
invoking a listener is recorded as an event `(listener id, state argument)`
in an event log returned alongside the new store.  A JS `Set` iterates
each member once, in insertion order, so the listener collection is a
duplicate-free list. -/

/-- The `RepoInfo` (`src/src/types/github.ts`). -/
structure RepoInfo where
  owner : String
  repo : String
  fullName : String
  description : Option String
  stars : Int
  forks : Int
  language : Option String
  defaultBranch : String
  url : String
deriving DecidableEq, Repr

/-- The `state.view`: `'landing' | 'repo'`. -/
inductive View where
  | landing
  | repo
deriving DecidableEq, Repr

/-- The `AppState` object. -/
structure AppState where
  view : View
  repoUrl : String
  loading : Bool
  error : Option String
  currentRepo : Option RepoInfo
  fileTree : Option FileNode
  selectedFile : Option FileNode
deriving Repr

/-- The `initialState` from the state module. -/
def initialState : AppState :=
  { view := .landing, repoUrl := "", loading := false, error := none
    currentRepo := none, fileTree := none, selectedFile := none }

/-- A `Partial<AppState>` argument to `setState`: a field that is `none`
here is absent from the update object and keeps its prior value. -/
structure StateUpdates where
  view : Option View := none
  repoUrl : Option String := none
  loading : Option Bool := none
  error : Option (Option String) := none
  currentRepo : Option (Option RepoInfo) := none
  fileTree : Option (Option FileNode) := none
  selectedFile : Option (Option FileNode) := none

/-- The spread merge `{ ...state, ...updates }`: shallow, last-write-wins
per field. -/
def mergeState (s : AppState) (u : StateUpdates) : AppState :=
  { view := u.view.getD s.view
    repoUrl := u.repoUrl.getD s.repoUrl
    loading := u.loading.getD s.loading
    error := u.error.getD s.error
    currentRepo := u.currentRepo.getD s.currentRepo
    fileTree := u.fileTree.getD s.fileTree
    selectedFile := u.selectedFile.getD s.selectedFile }

/-- The store: the module-level `state` together with the `listeners` set. -/
structure Store where
  state : AppState
  listeners : List Nat

/-- One listener invocation: which listener ran and the state it was
passed. -/
abbrev Event := Nat × AppState

/-- The `getState()`: returns (a shallow copy of) the current state. -/
def getState (st : Store) : AppState := st.state

/-- The `setState(updates, silent = false)`: merge, then, unless silent,
invoke every listener with the new state. -/
def setState (u : StateUpdates) (silent : Bool) (st : Store) :
    Store × List Event :=
  let s := mergeState st.state u
  ({ st with state := s },
   if silent then [] else st.listeners.map (fun l => (l, s)))

/-- The `resetState()`: restore `initialState` and always notify. -/
def resetState (st : Store) : Store × List Event :=
  ({ st with state := initialState },
   st.listeners.map (fun l => (l, initialState)))

/-- The `setLoading(loading)`. -/
def setLoading (loading : Bool) (st : Store) : Store × List Event :=
  setState { loading := some loading, error := some none } false st

/-- The `setError(error)`. -/
def setError (error : String) (st : Store) : Store × List Event :=
  setState { loading := some false, error := some (some error) } false st

/-- The `setRepoUrl(repoUrl, silent = true)`. -/
def setRepoUrl (repoUrl : String) (silent : Bool := true) (st : Store) :
    Store × List Event :=
  setState { repoUrl := some repoUrl, error := some none } silent st

/-- The `setRepoData(info, tree)`. -/
def setRepoData (info : RepoInfo) (tree : FileNode) (st : Store) :
    Store × List Event :=
  setState { currentRepo := some (some info), fileTree := some (some tree)
             loading := some false, error := some none
             view := some .repo } false st

/-- The `selectFile(file, silent = false)`. -/
def selectFile (file : Option FileNode) (silent : Bool := false)
    (st : Store) : Store × List Event :=
  setState { selectedFile := some file } silent st

/-- The `goToLanding()`. -/
def goToLanding (st : Store) : Store × List Event :=
  setState { view := some .landing, currentRepo := some none
             fileTree := some none, selectedFile := some none
             error := some none } false st

/-- Run a sequence of `setState` calls, concatenating the event logs. -/
def runCalls (st : Store) : List (StateUpdates × Bool) → Store × List Event
  | [] => (st, [])
  | (u, silent) :: rest =>
    let p := setState u silent st
    let q := runCalls p.1 rest
    (q.1, p.2 ++ q.2)

/-- The successive post-merge states of a sequence of updates. -/
def mergedStates (s : AppState) : List StateUpdates → List AppState
  | [] => []
  | u :: us => mergeState s u :: mergedStates (mergeState s u) us

/-! ### Durable blob store and JSON collaborator

`localStorage` is a per-origin string-keyed blob store; the code reads and
writes it through `JSON.stringify`/`JSON.parse`.  We model a stored blob as
either a well-formed JSON document or unparseable garbage: `JSON.stringify`
always produces a well-formed document for the argument types used here
(plain objects of strings, integers, arrays and nested plain objects, with
no `undefined`, `NaN` or cycles), and `JSON.parse` recovers exactly that
document, throwing — modelled as `none` — precisely on garbage. -/

/-- A JSON document. -/
inductive Json where
  | null
  | bool (b : Bool)
  | num (n : Int)
  | str (s : String)
  | arr (xs : List Json)
  | obj (fields : List (String × Json))
deriving Repr

/-- A persisted blob: parseable JSON text or garbage. -/
inductive Blob where
  | good (j : Json)
  | corrupt
deriving Repr

/-- The `JSON.parse` inside a `try`: `none` models the thrown-and-caught
`SyntaxError` on garbage. -/
def jsonParse : Blob → Option Json
  | .good j => some j
  | .corrupt => none

/-- The `JSON.stringify` on a JSON-safe value. -/
def jsonStringify (j : Json) : Blob := .good j

/-- The `localStorage` key space: later `setItem`s shadow earlier ones. -/
abbrev Storage := List (String × Blob)

/-- The `localStorage.getItem(key)`. -/
def Storage.getItem (kv : Storage) (key : String) : Option Blob :=
  (kv.find? (fun p => p.1 = key)).map (fun p => p.2)

/-- The `localStorage.setItem(key, value)`. -/
def Storage.setItem (kv : Storage) (key : String) (v : Blob) : Storage :=
  (key, v) :: kv

/-- Field lookup `parsed.field` on a parsed JSON value (`undefined`, i.e.
`none`, unless the value is an object with that field). -/
def Json.getField (j : Json) (key : String) : Option Json :=
  match j with
  | .obj fields => (fields.find? (fun p => p.1 = key)).map (fun p => p.2)
  | _ => none

/-- Numeric field access `parsed.field` where the caller uses the value as
a number; `none` when absent or not a number. -/
def Json.getIntField (j : Json) (key : String) : Option Int :=
  match j.getField key with
  | some (.num n) => some n
  | _ => none

/-- String field access; `none` when absent or not a string. -/
def Json.getStrField (j : Json) (key : String) : Option String :=
  match j.getField key with
  | some (.str s) => some s
  | _ => none

/-! ### Gamification progress (`src/unnamed/part_003`) -/

/-- The `UserProgress` record. -/
structure UserProgress where
  totalXP : Int
  currentStreak : Int
  longestStreak : Int
  challengesCompleted : Int
  correctAnswers : Int
  totalAnswers : Int
  lastActivityDate : String
deriving DecidableEq, Repr

/-- The `DEFAULT_PROGRESS`. -/
def DEFAULT_PROGRESS : UserProgress :=
  { totalXP := 0, currentStreak := 0, longestStreak := 0
    challengesCompleted := 0, correctAnswers := 0, totalAnswers := 0
    lastActivityDate := "" }

/-- The `PROGRESS_KEY`. -/
def PROGRESS_KEY : String := "repox_user_progress"

/-- The `CHALLENGES_KEY`. -/
def CHALLENGES_KEY : String := "repox_challenges_cache"

/-- The spread `{ ...DEFAULT_PROGRESS, ...JSON.parse(saved) }`: every field
present on the parsed object (with its expected runtime type) overrides the
default. -/
def mergeProgress (j : Json) : UserProgress :=
  { totalXP := (j.getIntField "totalXP").getD DEFAULT_PROGRESS.totalXP
    currentStreak :=
      (j.getIntField "currentStreak").getD DEFAULT_PROGRESS.currentStreak
    longestStreak :=
      (j.getIntField "longestStreak").getD DEFAULT_PROGRESS.longestStreak
    challengesCompleted :=
      (j.getIntField "challengesCompleted").getD
        DEFAULT_PROGRESS.challengesCompleted
    correctAnswers :=
      (j.getIntField "correctAnswers").getD DEFAULT_PROGRESS.correctAnswers
    totalAnswers :=
      (j.getIntField "totalAnswers").getD DEFAULT_PROGRESS.totalAnswers
    lastActivityDate :=
      (j.getStrField "lastActivityDate").getD
        DEFAULT_PROGRESS.lastActivityDate }

/-- The `getUserProgress()`: read `PROGRESS_KEY`; on a hit merge over the
defaults; a parse failure is caught and, like a miss, yields the default
record.  Total — never throws. -/
def getUserProgress (kv : Storage) : UserProgress :=
  match kv.getItem PROGRESS_KEY with
  | some b =>
    match jsonParse b with
    | some j => mergeProgress j
    | none => DEFAULT_PROGRESS
  | none => DEFAULT_PROGRESS

/-- The `JSON.stringify` of a `UserProgress` record. -/
def encodeProgress (p : UserProgress) : Json :=
  .obj [("totalXP", .num p.totalXP),
        ("currentStreak", .num p.currentStreak),
        ("longestStreak", .num p.longestStreak),
        ("challengesCompleted", .num p.challengesCompleted),
        ("correctAnswers", .num p.correctAnswers),
        ("totalAnswers", .num p.totalAnswers),
        ("lastActivityDate", .str p.lastActivityDate)]

/-- The `saveUserProgress(progress)`. -/
def saveUserProgress (p : UserProgress) (kv : Storage) : Storage :=
  kv.setItem PROGRESS_KEY (jsonStringify (encodeProgress p))

/-- The pure field update performed by `addXP(points, wasCorrect)`;
`today` stands for `new Date().toISOString().split('T')[0]`. -/
def addXPProgress (points : Int) (wasCorrect : Bool) (today : String)
    (p : UserProgress) : UserProgress :=
  let p1 := { p with totalXP := p.totalXP + points
                     totalAnswers := p.totalAnswers + 1 }
  let p2 :=
    if wasCorrect then
      let p2a := { p1 with correctAnswers := p1.correctAnswers + 1
                           currentStreak := p1.currentStreak + 1 }
      if p2a.longestStreak < p2a.currentStreak then
        { p2a with longestStreak := p2a.currentStreak }
      else p2a
    else { p1 with currentStreak := 0 }
  { p2 with lastActivityDate := today }

/-- The `addXP(points, wasCorrect)`: read progress, apply the update, persist
it.  Returns the updated record and the updated store. -/
def addXP (points : Int) (wasCorrect : Bool) (today : String)
    (kv : Storage) : UserProgress × Storage :=
  let p := addXPProgress points wasCorrect today (getUserProgress kv)
  (p, saveUserProgress p kv)

/-- The `completeChallengeSet()`: read progress, bump `challengesCompleted`,
persist. -/
def completeChallengeSet (kv : Storage) : UserProgress × Storage :=
  let p0 := getUserProgress kv
  let p := { p0 with challengesCompleted := p0.challengesCompleted + 1 }
  (p, saveUserProgress p kv)

/-- The cache key `` `${CHALLENGES_KEY}_${repoName}_${moduleIndex}` ``. -/
def challengesCacheKey (repoName : String) (moduleIndex : Nat) : String :=
  CHALLENGES_KEY ++ "_" ++ repoName ++ "_" ++ toString moduleIndex

/-- The `getCachedChallenges(repoName, moduleIndex)`: look up the cache entry,
parse it, and return its `challenges` payload when its `timestamp` is less
than 24 hours old; every failure path (missing key, parse error, missing
or non-numeric timestamp, stale entry) falls through to `null`.  `now` is
`Date.now()` in milliseconds.  The payload is returned as parsed, without
validation. -/
def getCachedChallenges (repoName : String) (moduleIndex : Nat) (now : Int)
    (kv : Storage) : Option Json :=
  match kv.getItem (challengesCacheKey repoName moduleIndex) with
  | some b =>
    match jsonParse b with
    | some data =>
      match data.getIntField "timestamp" with
      | some ts =>
        if now - ts < 24 * 60 * 60 * 1000 then data.getField "challenges"
        else none
      | none => none
    | none => none
  | none => none

/-- The `cacheChallenges(repoName, moduleIndex, challenges)`. -/
def cacheChallenges (repoName : String) (moduleIndex : Nat)
    (challenges : Json) (now : Int) (kv : Storage) : Storage :=
  kv.setItem (challengesCacheKey repoName moduleIndex)
    (jsonStringify (.obj [("challenges", challenges), ("timestamp", .num now)]))

/-! ### GitHub URL validation (`src/src/services/github.ts`) -/

/-- JS `String.prototype.trim`: drop whitespace from both ends. -/
def jsTrim (s : String) : String :=
  String.mk
    (((s.toList.dropWhile Char.isWhitespace).reverse.dropWhile
        Char.isWhitespace).reverse)

/-- One character of the regex class `[\w.-]` (JS `\w` is ASCII
alphanumeric plus underscore). -/
def isUrlNameChar (c : Char) : Bool :=
  c.isAlphanum || c = '_' || c = '.' || c = '-'

/-- Strip an exact literal from the front of the input, or fail. -/
def dropLit : List Char → List Char → Option (List Char)
  | [], cs => some cs
  | _ :: _, [] => none
  | l :: ls, c :: cs => if c = l then dropLit ls cs else none

/-- The `isValidGitHubUrl(url)`: the anchored test
`/^https?:\/\/(www\.)?github\.com\/[\w.-]+\/[\w.-]+\/?$/.test(url.trim())`,
unrolled.  Both optional groups are committed when present: after `https?`
the next literal is `:`, never `s`, and a trimmed input starting `www.`
can never satisfy the no-`www.` branch (which demands `g` next), so the
deterministic reading agrees with backtracking. -/
def isValidGitHubUrl (url : String) : Bool :=
  let cs := (jsTrim url).toList
  match dropLit "http".toList cs with
  | none => false
  | some cs1 =>
    let cs2 := match cs1 with
      | 's' :: rest => rest
      | _ => cs1
    match dropLit "://".toList cs2 with
    | none => false
    | some cs3 =>
      let cs4 := match dropLit "www.".toList cs3 with
        | some rest => rest
        | none => cs3
      match dropLit "github.com/".toList cs4 with
      | none => false
      | some cs5 =>
        let owner := cs5.takeWhile isUrlNameChar
        let r1 := cs5.dropWhile isUrlNameChar
        if owner = [] then false
        else
          match r1 with
          | '/' :: r2 =>
            let repo := r2.takeWhile isUrlNameChar
            let r3 := r2.dropWhile isUrlNameChar
            if repo = [] then false
            else r3 = [] || r3 = ['/']
          | _ => false

/-- One attempt of `/github\.com\/([^/]+)\/([^/]+)/` at the current
position: the literal, then two non-empty maximal `[^/]` captures
separated by `/`. -/
def matchRepoHere (cs : List Char) : Option (String × String) :=
  match dropLit "github.com/".toList cs with
  | none => none
  | some r1 =>
    let owner := r1.takeWhile (fun c => c ≠ '/')
    if owner = [] then none
    else
      match r1.dropWhile (fun c => c ≠ '/') with
      | '/' :: r2 =>
        let repo := r2.takeWhile (fun c => c ≠ '/')
        if repo = [] then none
        else some (String.mk owner, String.mk repo)
      | _ => none

/-- The regex search: try each position left to right. -/
def scanRepoMatch : List Char → Option (String × String)
  | [] => none
  | c :: cs =>
    match matchRepoHere (c :: cs) with
    | some r => some r
    | none => scanRepoMatch cs

/-- The `str.replace(/x$/, '')` for a literal suffix `x`. -/
def stripSuffixStr (s suffix : String) : String :=
  let cs := s.toList
  let sf := suffix.toList
  if sf.isSuffixOf cs then String.mk (cs.take (cs.length - sf.length)) else s

/-- The `parseGitHubUrl(url)`: search for `github.com/owner/repo` anywhere in
the trimmed URL; the repo capture is stripped of a trailing `.git` and a
trailing `/` (the latter is vacuous since the capture excludes `/`). -/
def parseGitHubUrl (url : String) : Option (String × String) :=
  (scanRepoMatch (jsTrim url).toList).map (fun p =>
    (p.1, stripSuffixStr (stripSuffixStr p.2 ".git") "/"))

/-! ### The explore action (`src/src/main.ts`, `handleExplore`) -/

/-- The `handleExplore()`: validate the URL from state, surfacing failures via
`setError`; on a valid URL enter loading, await `fetchRepository`, and
apply `setRepoData` on success or `setError(err.message)` on rejection.
The awaited fetch is the external collaborator, passed in as its outcome;
`saveRepoToHistory` touches only the history cache, not the state store,
and is outside this slice.  Total: every failure ends in `setError`,
nothing escapes the handler. -/
def handleExplore (fetchResult : Except String (RepoInfo × FileNode))
    (st : Store) : Store × List Event :=
  let url := jsTrim (getState st).repoUrl
  if url = "" then
    setError "Please enter a GitHub repository URL" st
  else if ¬ isValidGitHubUrl url then
    setError "Invalid GitHub URL. Format: https://github.com/owner/repo" st
  else
    match parseGitHubUrl url with
    | none => setError "Could not parse repository URL" st
    | some _ =>
      let p1 := setLoading true st
      match fetchResult with
      | .ok (info, tree) =>
        let p2 := setRepoData info tree p1.1
        (p2.1, p1.2 ++ p2.2)
      | .error e =>
        let p2 := setError e p1.1
        (p2.1, p1.2 ++ p2.2)

/-! ### Learning path serialization (`src/src/services/gemini.ts` types,
`src/src/main.ts` `saveLearningPath`/`getSavedLearningPath`) -/

/-- The `LearningProject.difficulty`. -/
inductive Difficulty where
  | beginner
  | intermediate
  | advanced
deriving DecidableEq, Repr

/-- The `LearningProject`. -/
structure LearningProject where
  title : String
  description : String
  difficulty : Difficulty
deriving DecidableEq, Repr

/-- The `LearningModule`. -/
structure LearningModule where
  title : String
  description : String
  files : List String
  objectives : List String
  estimatedMinutes : Int
deriving DecidableEq, Repr

/-- The `LearningPath`. -/
structure LearningPath where
  overview : String
  prerequisites : List String
  modules : List LearningModule
  projects : List LearningProject
deriving DecidableEq, Repr

def encodeStrList (xs : List String) : Json := .arr (xs.map .str)

def encodeDifficulty : Difficulty → Json
  | .beginner => .str "beginner"
  | .intermediate => .str "intermediate"
  | .advanced => .str "advanced"

def encodeModule (m : LearningModule) : Json :=
  .obj [("title", .str m.title),
        ("description", .str m.description),
        ("files", encodeStrList m.files),
        ("objectives", encodeStrList m.objectives),
        ("estimatedMinutes", .num m.estimatedMinutes)]

def encodeProject (p : LearningProject) : Json :=
  .obj [("title", .str p.title),
        ("description", .str p.description),
        ("difficulty", encodeDifficulty p.difficulty)]

/-- The `JSON.stringify` of a `LearningPath` value: the JSON document it
serializes to. -/
def encodeLearningPath (p : LearningPath) : Json :=
  .obj [("overview", .str p.overview),
        ("prerequisites", encodeStrList p.prerequisites),
        ("modules", .arr (p.modules.map encodeModule)),
        ("projects", .arr (p.projects.map encodeProject))]

def Json.asStr : Json → Option String
  | .str s => some s
  | _ => none

/-- Decode every element of a JSON array, failing if any element fails. -/
def decodeList (f : Json → Option α) : List Json → Option (List α)
  | [] => some []
  | j :: rest =>
    match f j with
    | some x => (decodeList f rest).map (fun xs => x :: xs)
    | none => none

def decodeStrList : Json → Option (List String)
  | .arr xs => decodeList Json.asStr xs
  | _ => none

def decodeDifficulty : Json → Option Difficulty
  | .str "beginner" => some .beginner
  | .str "intermediate" => some .intermediate
  | .str "advanced" => some .advanced
  | _ => none

def decodeModule (j : Json) : Option LearningModule := do
  let title ← j.getStrField "title"
  let description ← j.getStrField "description"
  let files ← (j.getField "files").bind decodeStrList
  let objectives ← (j.getField "objectives").bind decodeStrList
  let estimatedMinutes ← j.getIntField "estimatedMinutes"
  pure { title := title, description := description, files := files
         objectives := objectives, estimatedMinutes := estimatedMinutes }

def decodeProject (j : Json) : Option LearningProject := do
  let title ← j.getStrField "title"
  let description ← j.getStrField "description"
  let difficulty ← (j.getField "difficulty").bind decodeDifficulty
  pure { title := title, description := description
         difficulty := difficulty }

def decodeModuleList : Json → Option (List LearningModule)
  | .arr xs => decodeList decodeModule xs
  | _ => none

def decodeProjectList : Json → Option (List LearningProject)
  | .arr xs => decodeList decodeProject xs
  | _ => none

/-- Reading a `LearningPath` structure back out of a parsed JSON document:
the typed view of the parsed object that the caller's cast asserts. -/
def decodeLearningPath (j : Json) : Option LearningPath := do
  let overview ← j.getStrField "overview"
  let prerequisites ← (j.getField "prerequisites").bind decodeStrList
  let modules ← (j.getField "modules").bind decodeModuleList
  let projects ← (j.getField "projects").bind decodeProjectList
  pure { overview := overview, prerequisites := prerequisites
         modules := modules, projects := projects }

/-- The key `` `repox_learning_path_${repoName}` ``. -/
def learningPathKey (repoName : String) : String :=
  "repox_learning_path_" ++ repoName

/-- The `saveLearningPath(repoName, path)`. -/
def saveLearningPath (repoName : String) (path : LearningPath)
    (kv : Storage) : Storage :=
  kv.setItem (learningPathKey repoName)
    (jsonStringify (encodeLearningPath path))

/-- The `getSavedLearningPath(repoName)`: read the key; on a hit return
`JSON.parse(saved)` with the parse error caught to `null`; on a miss
return `null`.  The parsed document is returned unvalidated (the code
casts it). -/
def getSavedLearningPath (repoName : String) (kv : Storage) : Option Json :=
  match kv.getItem (learningPathKey repoName) with
  | some b => jsonParse b
  | none => none

/-! ### Challenge modal (`src/src/main.ts`) -/

/-- The `Challenge.type`. -/
inductive ChallengeType where
  | multiple_choice
  | true_false
  | code_output
deriving DecidableEq, Repr

/-- The `Challenge` (`src/src/services/gemini.ts`). -/
structure Challenge where
  id : String
  ctype : ChallengeType
  question : String
  options : List String
  correctAnswer : String
  explanation : String
  points : Int
deriving DecidableEq, Repr

/-- One entry of `challengeModalState.results`. -/
structure AnswerOutcome where
  correct : Bool
  points : Int
deriving DecidableEq, Repr

/-- The `challengeModalState` (module-level, `null` when no session runs). -/
structure ChallengeModalState where
  challenges : List Challenge
  currentIndex : Nat
  results : List AnswerOutcome
deriving Repr

/-- The `handleChallengeAnswer(selectedAnswer)`: the skip sentinel is the
string `"__SKIP__"`; a non-skip answer is correct exactly when it equals
`challenge.correctAnswer` (strict string equality); `addXP` runs only for
non-skip answers; the outcome is appended to `results`.  A live session
always has `currentIndex` in range; out of range the body would fault
before mutating anything, so the model returns its inputs unchanged
there. -/
def handleChallengeAnswer (selectedAnswer : String) (today : String)
    (ms : ChallengeModalState) (kv : Storage) :
    ChallengeModalState × Storage :=
  match ms.challenges.get? ms.currentIndex with
  | none => (ms, kv)
  | some challenge =>
    let isSkip := selectedAnswer == "__SKIP__"
    let isCorrect := !isSkip && (selectedAnswer == challenge.correctAnswer)
    let earnedPoints := if isCorrect then challenge.points else 0
    let kv2 := if !isSkip then (addXP earnedPoints isCorrect today kv).2
               else kv
    ({ ms with results := ms.results ++ [{ correct := isCorrect
                                           points := earnedPoints }] },
     kv2)

/-- The Question→Feedback→Question loop: each answer goes through
`handleChallengeAnswer` and the Next button advances `currentIndex`. -/
def runChallengeAnswers (today : String) :
    List String → ChallengeModalState → Storage →
    ChallengeModalState × Storage
  | [], ms, kv => (ms, kv)
  | a :: rest, ms, kv =>
    let p := handleChallengeAnswer a today ms kv
    runChallengeAnswers today rest
      { p.1 with currentIndex := p.1.currentIndex + 1 } p.2

/-- A full session from `Question(0)` through `showChallengeResults`:
every question answered (or skipped), then the Results screen runs
`completeChallengeSet()` once. -/
def runChallengeSession (qs : List Challenge) (answers : List String)
    (today : String) (kv : Storage) : Storage :=
  let start : ChallengeModalState :=
    { challenges := qs, currentIndex := 0, results := [] }
  let p := runChallengeAnswers today answers start kv
  (completeChallengeSet p.2).2

/-! ### Supporting definitions for the graph claims -/

mutual

/-- The `FileNode` data-model invariant from the spec: folders always have
a `children` array, files never do (only the file half matters for the
depth bound). -/
def filesChildless : FileNode → Bool
  | .mk _ _ t _ ch _ =>
    (match t, ch with
     | .file, some _ => false
     | _, _ => true) &&
    (match ch with
     | some cs => filesChildlessList cs
     | none => true)

/-- The `filesChildless` on every node of a list of subtrees. -/
def filesChildlessList : List FileNode → Bool
  | [] => true
  | c :: rest => filesChildless c && filesChildlessList rest

end

/-- A four-level tree: root/a/b/c/d.ts, with `d.ts` a file at depth 4. -/
def deepFileTree : FileNode :=
  .mk "root" "" .folder none
    (some [.mk "a" "a" .folder none
      (some [.mk "b" "a/b" .folder none
        (some [.mk "c" "a/b/c" .folder none
          (some [.mk "d.ts" "a/b/c/d.ts" .file none none (some "ts")])
          none])
        none])
      none])
    none

/-- A tree consisting of only a root with an empty `children` array. -/
def rootOnlyTree : FileNode := .mk "root" "" .folder none (some []) none

/-- The graph node `treeToGraph` produces for the root of
`deepFileTree`. -/
def rootGraphNode : GraphNode :=
  { id := "root", name := "root", path := "", ntype := .folder,
    extension := none, size := none, depth := 0,
    children := some ["a"] }

/-- The well-formedness invariant C10 is about. -/
def ProgressInv (p : UserProgress) : Prop :=
  p.currentStreak ≤ p.longestStreak
  ∧ p.correctAnswers ≤ p.totalAnswers
  ∧ 0 ≤ p.totalXP ∧ 0 ≤ p.currentStreak ∧ 0 ≤ p.longestStreak
  ∧ 0 ≤ p.challengesCompleted ∧ 0 ≤ p.correctAnswers ∧ 0 ≤ p.totalAnswers

instance (p : UserProgress) : Decidable (ProgressInv p) := by
  unfold ProgressInv; infer_instance

/-! ## Helper lemmas -/

theorem runCalls_listeners (st : Store) (calls : List (StateUpdates × Bool)) :
    (runCalls st calls).1.listeners = st.listeners := by
  induction calls generalizing st with
  | nil => rfl
  | cons c rest ih =>
    obtain ⟨u, silent⟩ := c
    simpa [runCalls, setState] using ih { st with state := mergeState st.state u }

theorem runCalls_silent (st : Store) (us : List StateUpdates) :
    (runCalls st (us.map (fun u => (u, true)))).1.state
        = us.foldl mergeState st.state
    ∧ (runCalls st (us.map (fun u => (u, true)))).2 = [] := by
  induction us generalizing st with
  | nil => exact ⟨rfl, rfl⟩
  | cons u rest ih =>
    have h := ih { st with state := mergeState st.state u }
    simpa [runCalls, setState] using h

theorem runCalls_loud (st : Store) (us : List StateUpdates) :
    (runCalls st (us.map (fun u => (u, false)))).1.state
        = us.foldl mergeState st.state
    ∧ (runCalls st (us.map (fun u => (u, false)))).2
        = (mergedStates st.state us).flatMap
            (fun s => st.listeners.map (fun l => (l, s))) := by
  induction us generalizing st with
  | nil => exact ⟨rfl, rfl⟩
  | cons u rest ih =>
    have h := ih { st with state := mergeState st.state u }
    simpa [runCalls, setState, mergedStates] using h

theorem mergedStates_length (s : AppState) (us : List StateUpdates) :
    (mergedStates s us).length = us.length := by
  induction us generalizing s with
  | nil => rfl
  | cons u rest ih => simp [mergedStates, ih]

theorem countP_bind_blocks (l0 : Nat) (L : List Nat) (ss : List AppState) :
    ((ss.flatMap (fun s => L.map (fun l => (l, s)))).countP
        (fun e => e.1 == l0))
      = ss.length * (L.countP (fun l => l == l0)) := by
  induction ss with
  | nil => simp
  | cons s rest ih =>
    simp [List.countP_append, ih, List.countP_map, Nat.succ_mul,
      Function.comp_def, Nat.add_comm]

theorem nodup_countP_eq_one (L : List Nat) (l0 : Nat) (hnd : L.Nodup)
    (hmem : l0 ∈ L) : L.countP (fun l => l == l0) = 1 := by
  have := List.count_eq_one_of_mem hnd hmem
  simpa [List.count] using this

theorem traverse_nodes_le (maxD maxN : Nat) (n : FileNode) (d : Nat)
    (pid : Option String) (acc : GraphAcc)
    (h : acc.nodes.length ≤ maxN) :
    (traverse maxD maxN n d pid acc).nodes.length ≤ maxN := by
  refine traverse.induct maxD maxN
    (fun n d pid acc => acc.nodes.length ≤ maxN →
      (traverse maxD maxN n d pid acc).nodes.length ≤ maxN)
    (fun cs d pid acc => acc.nodes.length ≤ maxN →
      (traverseChildren maxD maxN cs d pid acc).nodes.length ≤ maxN)
    ?_ ?_ ?_ ?_ ?_ ?_ n d pid acc h
  · intro t depth pid acc hguard hacc
    rw [traverse.eq_def]
    simp only [if_pos hguard]
    exact hacc
  · intro t depth pid acc hg1 hg2 hacc
    rw [traverse.eq_def]
    simp only [if_neg hg1, if_pos hg2]
    exact hacc
  · intro depth pid acc hg1 a a1 a2 a3 a4 hg2 hacc
    rw [traverse.eq_def]
    simp only [if_neg hg1, if_neg hg2]
    simp
    omega
  · intro depth pid acc hg1 a a1 a2 a3 a4 id cs gn acc1 hg2 ih hacc
    rw [traverse.eq_def]
    simp only [if_neg hg1, if_neg hg2]
    exact ih (by simp [acc1, gn]; omega)
  · intro depth pid acc hacc
    rw [traverseChildren.eq_def]
    exact hacc
  · intro depth pid acc c rest ih1 ih2 hacc
    rw [traverseChildren.eq_def]
    exact ih2 (ih1 hacc)

theorem traverse_mem_mono (maxD maxN : Nat) (n : FileNode) (d : Nat)
    (pid : Option String) (acc : GraphAcc) :
    ∀ x ∈ acc.nodes, x ∈ (traverse maxD maxN n d pid acc).nodes := by
  refine traverse.induct maxD maxN
    (fun n d pid acc =>
      ∀ x ∈ acc.nodes, x ∈ (traverse maxD maxN n d pid acc).nodes)
    (fun cs d pid acc =>
      ∀ x ∈ acc.nodes, x ∈ (traverseChildren maxD maxN cs d pid acc).nodes)
    ?_ ?_ ?_ ?_ ?_ ?_ n d pid acc
  · intro t depth pid acc hguard x hx
    rw [traverse.eq_def]
    simp only [if_pos hguard]
    exact hx
  · intro t depth pid acc hg1 hg2 x hx
    rw [traverse.eq_def]
    simp only [if_neg hg1, if_pos hg2]
    exact hx
  · intro depth pid acc hg1 a a1 a2 a3 a4 hg2 x hx
    rw [traverse.eq_def]
    simp only [if_neg hg1, if_neg hg2]
    simp
    exact Or.inl hx
  · intro depth pid acc hg1 a a1 a2 a3 a4 id cs gn acc1 hg2 ih x hx
    rw [traverse.eq_def]
    simp only [if_neg hg1, if_neg hg2]
    exact ih x (by simp [acc1]; exact Or.inl hx)
  · intro depth pid acc x hx
    rw [traverseChildren.eq_def]
    exact hx
  · intro depth pid acc c rest ih1 ih2 x hx
    rw [traverseChildren.eq_def]
    exact ih2 x (ih1 x hx)

theorem traverse_balance (maxD maxN : Nat) (n : FileNode) (d : Nat)
    (pid : Option String) (acc : GraphAcc) :
    (∀ p, pid = some p →
      (traverse maxD maxN n d pid acc).links.length + acc.nodes.length
        = (traverse maxD maxN n d pid acc).nodes.length + acc.links.length)
  ∧ (pid = none → acc.nodes.length < maxN →
      ¬(maxD < d ∧ n.ntype = .folder) →
      (traverse maxD maxN n d pid acc).links.length + acc.nodes.length + 1
        = (traverse maxD maxN n d pid acc).nodes.length
            + acc.links.length) := by
  refine traverse.induct maxD maxN
    (fun n d pid acc =>
      (∀ p, pid = some p →
        (traverse maxD maxN n d pid acc).links.length + acc.nodes.length
          = (traverse maxD maxN n d pid acc).nodes.length
              + acc.links.length)
      ∧ (pid = none → acc.nodes.length < maxN →
          ¬(maxD < d ∧ n.ntype = .folder) →
          (traverse maxD maxN n d pid acc).links.length
              + acc.nodes.length + 1
            = (traverse maxD maxN n d pid acc).nodes.length
                + acc.links.length))
    (fun cs d pid acc =>
      (traverseChildren maxD maxN cs d pid acc).links.length
          + acc.nodes.length
        = (traverseChildren maxD maxN cs d pid acc).nodes.length
            + acc.links.length)
    ?_ ?_ ?_ ?_ ?_ ?_ n d pid acc
  · intro t depth pid acc hguard
    constructor
    · intro p hp
      rw [traverse.eq_def]
      simp only [if_pos hguard]
      omega
    · intro _ hlt _
      omega
  · intro t depth pid acc hg1 hg2
    constructor
    · intro p hp
      rw [traverse.eq_def]
      simp only [if_neg hg1, if_pos hg2]
      omega
    · intro _ _ hno
      exact absurd hg2 hno
  · intro depth pid acc hg1 a a1 a2 a3 a4 hg2
    constructor
    · rintro p rfl
      rw [traverse.eq_def]
      simp only [if_neg hg1, if_neg hg2]
      simp
      omega
    · rintro rfl hlt _
      rw [traverse.eq_def]
      simp only [if_neg hg1, if_neg hg2]
      simp
      omega
  · intro depth pid acc hg1 a a1 a2 a3 a4 nid cs gn acc1 hg2 ih
    constructor
    · rintro p rfl
      rw [traverse.eq_def]
      simp only [if_neg hg1, if_neg hg2]
      have h := ih
      simp only [acc1, gn, nid] at h ⊢
      simp at h ⊢
      omega
    · rintro rfl hlt _
      rw [traverse.eq_def]
      simp only [if_neg hg1, if_neg hg2]
      have h := ih
      simp only [acc1, gn, nid] at h ⊢
      simp at h ⊢
      omega
  · intro depth pid acc
    show acc.links.length + acc.nodes.length
      = acc.nodes.length + acc.links.length
    omega
  · intro depth pid acc c rest ih1 ih2
    have h1 := ih1.1 pid rfl
    show (traverseChildren maxD maxN rest depth pid
        (traverse maxD maxN c depth (some pid) acc)).links.length
        + acc.nodes.length
      = (traverseChildren maxD maxN rest depth pid
          (traverse maxD maxN c depth (some pid) acc)).nodes.length
          + acc.links.length
    omega

theorem traverse_endpoints (maxD maxN : Nat) (n : FileNode) (d : Nat)
    (pid : Option String) (acc : GraphAcc)
    (hpid : ∀ p, pid = some p → p ∈ acc.nodes.map GraphNode.id)
    (hinv : ∀ lk ∈ acc.links,
      lk.source ∈ acc.nodes.map GraphNode.id
      ∧ lk.target ∈ acc.nodes.map GraphNode.id) :
    ∀ lk ∈ (traverse maxD maxN n d pid acc).links,
      lk.source ∈ (traverse maxD maxN n d pid acc).nodes.map GraphNode.id
      ∧ lk.target
          ∈ (traverse maxD maxN n d pid acc).nodes.map GraphNode.id := by
  refine traverse.induct maxD maxN
    (fun n d pid acc =>
      (∀ p, pid = some p → p ∈ acc.nodes.map GraphNode.id) →
      (∀ lk ∈ acc.links,
        lk.source ∈ acc.nodes.map GraphNode.id
        ∧ lk.target ∈ acc.nodes.map GraphNode.id) →
      ∀ lk ∈ (traverse maxD maxN n d pid acc).links,
        lk.source ∈ (traverse maxD maxN n d pid acc).nodes.map GraphNode.id
        ∧ lk.target
            ∈ (traverse maxD maxN n d pid acc).nodes.map GraphNode.id)
    (fun cs d p acc =>
      p ∈ acc.nodes.map GraphNode.id →
      (∀ lk ∈ acc.links,
        lk.source ∈ acc.nodes.map GraphNode.id
        ∧ lk.target ∈ acc.nodes.map GraphNode.id) →
      ∀ lk ∈ (traverseChildren maxD maxN cs d p acc).links,
        lk.source
            ∈ (traverseChildren maxD maxN cs d p acc).nodes.map GraphNode.id
        ∧ lk.target
            ∈ (traverseChildren maxD maxN cs d p acc).nodes.map
                GraphNode.id)
    ?_ ?_ ?_ ?_ ?_ ?_ n d pid acc hpid hinv
  · intro t depth pid acc hguard hp hi lk hlk
    rw [traverse.eq_def] at hlk ⊢
    simp only [if_pos hguard] at hlk ⊢
    exact hi lk hlk
  · intro t depth pid acc hg1 hg2 hp hi lk hlk
    rw [traverse.eq_def] at hlk ⊢
    simp only [if_neg hg1, if_pos hg2] at hlk ⊢
    exact hi lk hlk
  · intro depth pid acc hg1 a a1 a2 a3 a4 hg2 hp hi lk hlk
    rw [traverse.eq_def] at hlk ⊢
    simp only [if_neg hg1, if_neg hg2] at hlk ⊢
    simp only [List.map_append, List.mem_append] at hlk ⊢
    rcases hlk with hlk | hlk
    · have := hi lk hlk
      exact ⟨Or.inl this.1, Or.inl this.2⟩
    · cases hcase : pid with
      | none => simp [hcase] at hlk
      | some p =>
        simp [hcase] at hlk
        subst hlk
        refine ⟨Or.inl (hp p hcase), Or.inr ?_⟩
        simp
  · intro depth pid acc hg1 a a1 a2 a3 a4 id cs gn acc1 hg2 ih hp hi lk hlk
    rw [traverse.eq_def] at hlk ⊢
    simp only [if_neg hg1, if_neg hg2] at hlk ⊢
    refine ih ?_ ?_ lk hlk
    · simp only [acc1, gn]
      simp
    · intro lk' hlk'
      simp only [acc1, gn] at hlk' ⊢
      simp only [List.map_append, List.mem_append] at hlk' ⊢
      rcases hlk' with hlk' | hlk'
      · have := hi lk' hlk'
        exact ⟨Or.inl this.1, Or.inl this.2⟩
      · cases hcase : pid with
        | none => simp [hcase] at hlk'
        | some p =>
          simp [hcase] at hlk'
          subst hlk'
          refine ⟨Or.inl (hp p hcase), Or.inr ?_⟩
          simp
  · intro depth pid acc hp hi lk hlk
    rw [traverseChildren.eq_def] at hlk ⊢
    exact hi lk hlk
  · intro depth pid acc c rest ih1 ih2 hp hi lk hlk
    rw [traverseChildren.eq_def] at hlk ⊢
    refine ih2 ?_ ?_ lk hlk
    · rcases List.mem_map.1 hp with ⟨x, hx, hxid⟩
      subst hxid
      exact List.mem_map_of_mem _
        (traverse_mem_mono maxD maxN c depth (some x.id) acc x hx)
    · exact ih1 (fun p hp' => (Option.some.inj hp') ▸ hp) hi

theorem filesChildlessList_cons (c : FileNode) (rest : List FileNode) :
    filesChildlessList (c :: rest)
      = (filesChildless c && filesChildlessList rest) := by
  rw [filesChildlessList.eq_def]

theorem filesChildless_some (a a1 : String) (t : NodeType) (a3 : Option Nat)
    (cs : List FileNode) (a4 : Option String)
    (h : filesChildless (.mk a a1 t a3 (some cs) a4) = true) :
    t = .folder ∧ filesChildlessList cs = true := by
  rw [filesChildless.eq_def] at h
  cases t with
  | file => simp at h
  | folder => simpa using h

theorem traverse_depth_bound (maxD maxN : Nat) (n : FileNode) (d : Nat)
    (pid : Option String) (acc : GraphAcc)
    (hwf : filesChildless n = true) (hd : d ≤ maxD + 1) :
    ∀ gn ∈ (traverse maxD maxN n d pid acc).nodes,
      gn ∈ acc.nodes
      ∨ ((gn.ntype = .folder → gn.depth ≤ maxD)
          ∧ gn.depth ≤ maxD + 1) := by
  refine traverse.induct maxD maxN
    (fun n d pid acc =>
      filesChildless n = true → d ≤ maxD + 1 →
      ∀ gn ∈ (traverse maxD maxN n d pid acc).nodes,
        gn ∈ acc.nodes
        ∨ ((gn.ntype = .folder → gn.depth ≤ maxD)
            ∧ gn.depth ≤ maxD + 1))
    (fun cs d pid acc =>
      filesChildlessList cs = true → d ≤ maxD + 1 →
      ∀ gn ∈ (traverseChildren maxD maxN cs d pid acc).nodes,
        gn ∈ acc.nodes
        ∨ ((gn.ntype = .folder → gn.depth ≤ maxD)
            ∧ gn.depth ≤ maxD + 1))
    ?_ ?_ ?_ ?_ ?_ ?_ n d pid acc hwf hd
  · intro t depth pid acc hguard _ _ gn hgn
    rw [traverse.eq_def] at hgn
    simp only [if_pos hguard] at hgn
    exact Or.inl hgn
  · intro t depth pid acc hg1 hg2 _ _ gn hgn
    rw [traverse.eq_def] at hgn
    simp only [if_neg hg1, if_pos hg2] at hgn
    exact Or.inl hgn
  · intro depth pid acc hg1 a a1 a2 a3 a4 hg2 _ hdep gn hgn
    rw [traverse.eq_def] at hgn
    simp only [if_neg hg1, if_neg hg2] at hgn
    simp only [List.mem_append, List.mem_singleton] at hgn
    rcases hgn with hgn | hgn
    · exact Or.inl hgn
    · subst hgn
      refine Or.inr ⟨?_, hdep⟩
      intro hfold
      simp only [FileNode.ntype] at hg2
      change a2 = NodeType.folder at hfold
      change depth ≤ maxD
      by_contra hlt
      exact hg2 ⟨by omega, hfold⟩
  · intro depth pid acc hg1 a a1 a2 a3 a4 id cs gn acc1 hg2 ih hwf hdep
      g hg
    rw [traverse.eq_def] at hg
    simp only [if_neg hg1, if_neg hg2] at hg
    obtain ⟨hfold, hcs⟩ := filesChildless_some a a1 a2 a3 cs a4 hwf
    have hdep' : depth ≤ maxD := by
      subst hfold
      simp only [FileNode.ntype, and_true] at hg2
      omega
    have := ih hcs (by omega) g hg
    rcases this with hmem | hok
    · simp only [acc1, List.mem_append, List.mem_singleton] at hmem
      rcases hmem with hmem | hmem
      · exact Or.inl hmem
      · subst hmem
        refine Or.inr ⟨fun _ => hdep', ?_⟩
        change depth ≤ maxD + 1
        omega
    · exact Or.inr hok
  · intro depth pid acc _ _ gn hgn
    rw [traverseChildren.eq_def] at hgn
    exact Or.inl hgn
  · intro depth pid acc c rest ih1 ih2 hwf hdep gn hgn
    rw [traverseChildren.eq_def] at hgn
    rw [filesChildlessList_cons, Bool.and_eq_true] at hwf
    have := ih2 hwf.2 hdep gn hgn
    rcases this with hmem | hok
    · exact ih1 hwf.1 hdep gn hmem
    · exact Or.inr hok

/-! ## Claims -/

/-- C1: for every sequence of `setState` calls, silent calls invoke no
subscriber yet the resulting `getState()` is the left fold of the shallow
merges; non-silent calls produce, per call, exactly one invocation of each
currently-registered subscriber, carrying the post-merge state of that
call, and reach the same final state.  The final conjunct makes "exactly
once per call" explicit: a duplicate-free listener set (a JS `Set`) sees
exactly `us.length` invocations of each registered listener. -/
theorem setState_silent_and_notify_spec (st : Store)
    (us : List StateUpdates) :
    ((runCalls st (us.map (fun u => (u, true)))).1.state
        = us.foldl mergeState st.state)
  ∧ ((runCalls st (us.map (fun u => (u, true)))).2 = [])
  ∧ ((runCalls st (us.map (fun u => (u, false)))).1.state
        = us.foldl mergeState st.state)
  ∧ ((runCalls st (us.map (fun u => (u, false)))).2
        = (mergedStates st.state us).flatMap
            (fun s => st.listeners.map (fun l => (l, s))))
  ∧ (st.listeners.Nodup → ∀ l ∈ st.listeners,
        ((runCalls st (us.map (fun u => (u, false)))).2.countP
            (fun e => e.1 == l)) = us.length) := by
  refine ⟨(runCalls_silent st us).1, (runCalls_silent st us).2,
    (runCalls_loud st us).1, (runCalls_loud st us).2, ?_⟩
  intro hnd l hl
  rw [(runCalls_loud st us).2, countP_bind_blocks, mergedStates_length,
    nodup_countP_eq_one st.listeners l hnd hl, Nat.mul_one]

/-- C1 witness: two non-silent calls against one registered listener
yield exactly two invocations of it. -/
theorem setState_silent_and_notify_spec_witness :
    ((runCalls { state := initialState, listeners := [7] }
        ([({ loading := some true } : StateUpdates),
          { error := some (some "x") }].map (fun u => (u, false)))).2.countP
        (fun e => e.1 == 7)) = 2 := by
  exact (setState_silent_and_notify_spec
      { state := initialState, listeners := [7] }
      [{ loading := some true }, { error := some (some "x") }]).2.2.2.2
    (by decide) 7 (by decide)

theorem getUserProgress_save (p : UserProgress) (kv : Storage) :
    getUserProgress (saveUserProgress p kv) = p := by
  simp [getUserProgress, saveUserProgress, Storage.getItem, Storage.setItem,
    jsonParse, jsonStringify, mergeProgress, encodeProgress, Json.getIntField,
    Json.getStrField, Json.getField, PROGRESS_KEY, List.find?]

theorem addXPProgress_challengesCompleted (pts : Int) (c : Bool)
    (d : String) (p : UserProgress) :
    (addXPProgress pts c d p).challengesCompleted = p.challengesCompleted := by
  cases c <;>
    simp [addXPProgress, apply_ite (f := UserProgress.challengesCompleted)]

theorem getUserProgress_addXP (pts : Int) (c : Bool) (today : String)
    (kv : Storage) :
    getUserProgress (addXP pts c today kv).2
      = addXPProgress pts c today (getUserProgress kv) := by
  simp [addXP, getUserProgress_save]

theorem handleChallengeAnswer_challengesCompleted (a today : String)
    (ms : ChallengeModalState) (kv : Storage) :
    (getUserProgress (handleChallengeAnswer a today ms kv).2).challengesCompleted
      = (getUserProgress kv).challengesCompleted := by
  unfold handleChallengeAnswer
  cases hch : ms.challenges.get? ms.currentIndex with
  | none => rfl
  | some ch =>
    simp only []
    split
    · rw [getUserProgress_addXP, addXPProgress_challengesCompleted]
    · rfl

theorem runChallengeAnswers_challengesCompleted (today : String)
    (answers : List String) (ms : ChallengeModalState) (kv : Storage) :
    (getUserProgress
        (runChallengeAnswers today answers ms kv).2).challengesCompleted
      = (getUserProgress kv).challengesCompleted := by
  induction answers generalizing ms kv with
  | nil => rfl
  | cons a rest ih =>
    rw [runChallengeAnswers, ih, handleChallengeAnswer_challengesCompleted]

/-- C2: `setRepoData(info, tree)` sets the repo info, the tree and the
repo view, clears loading and error, leaves `selectedFile` and `repoUrl`
(the only other fields) at their prior values, and emits exactly one
notification per registered subscriber in a single pass. -/
theorem setRepoData_spec (st : Store) (info : RepoInfo) (tree : FileNode) :
    ((setRepoData info tree st).1.state.currentRepo = some info)
  ∧ ((setRepoData info tree st).1.state.fileTree = some tree)
  ∧ ((setRepoData info tree st).1.state.view = .repo)
  ∧ ((setRepoData info tree st).1.state.loading = false)
  ∧ ((setRepoData info tree st).1.state.error = none)
  ∧ ((setRepoData info tree st).1.state.selectedFile
        = st.state.selectedFile)
  ∧ ((setRepoData info tree st).1.state.repoUrl = st.state.repoUrl)
  ∧ ((setRepoData info tree st).2
        = st.listeners.map (fun l => (l, (setRepoData info tree st).1.state)))
  ∧ ((setRepoData info tree st).2.length = st.listeners.length) := by
  refine ⟨rfl, rfl, rfl, rfl, rfl, rfl, rfl, rfl, ?_⟩
  simp [setRepoData, setState]

/-- C7: from the initial landing state, after `setRepoUrl("not-a-url")`
(the silent keystroke path), the explore action leaves a non-empty error
message, keeps `loading` false and stays on the landing view, for every
possible outcome of the (unreached) repository fetch; the handler is a
total function, so no failure escapes it. -/
theorem handleExplore_invalid_url_spec (L : List Nat)
    (fr : Except String (RepoInfo × FileNode)) :
    (∃ msg,
      (handleExplore fr ((setRepoUrl "not-a-url" true
          { state := initialState, listeners := L }).1)).1.state.error
        = some msg ∧ msg ≠ "")
  ∧ (handleExplore fr ((setRepoUrl "not-a-url" true
        { state := initialState, listeners := L }).1)).1.state.loading
      = false
  ∧ (handleExplore fr ((setRepoUrl "not-a-url" true
        { state := initialState, listeners := L }).1)).1.state.view
      = .landing := by
  exact ⟨⟨"Invalid GitHub URL. Format: https://github.com/owner/repo",
    rfl, by decide⟩, rfl, rfl⟩

/-- C3: for every file tree, `treeToGraph` (the conversion `initialize`
uses) produces at most 150 nodes; the node count always exceeds the edge
count by exactly one (the source tree is connected from its root, and so
is every truncation the traversal produces); every edge's source and
target are ids of included nodes; and a root-only tree yields exactly one
node and zero edges. -/
theorem treeToGraph_counts_spec (t : FileNode) :
    ((treeToGraph t).nodes.length ≤ 150)
  ∧ ((treeToGraph t).nodes.length = (treeToGraph t).links.length + 1)
  ∧ (∀ lk ∈ (treeToGraph t).links,
      lk.source ∈ (treeToGraph t).nodes.map GraphNode.id
      ∧ lk.target ∈ (treeToGraph t).nodes.map GraphNode.id)
  ∧ ((t.children = none ∨ t.children = some []) →
      (treeToGraph t).nodes.length = 1 ∧ (treeToGraph t).links = []) := by
  refine ⟨?_, ?_, ?_, ?_⟩
  · exact traverse_nodes_le 3 150 t 0 none ⟨[], []⟩ (by simp)
  · have h := (traverse_balance 3 150 t 0 none ⟨[], []⟩).2 rfl
      (by simp) (by rintro ⟨h3, _⟩; omega)
    show (traverse 3 150 t 0 none ⟨[], []⟩).nodes.length
      = (traverse 3 150 t 0 none ⟨[], []⟩).links.length + 1
    simp only [GraphAcc.nodes, GraphAcc.links, List.length_nil] at h
    omega
  · exact traverse_endpoints 3 150 t 0 none ⟨[], []⟩
      (fun p hp => by cases hp) (fun lk hlk => by cases hlk)
  · intro hch
    rcases t with ⟨n, p, ty, sz, ch, ext⟩
    simp only [FileNode.children] at hch
    rcases hch with rfl | rfl
    · exact ⟨rfl, rfl⟩
    · exact ⟨rfl, rfl⟩

/-- C3 witness: on the four-level sample tree the edge from the root to
`a` joins two included node ids; on the root-only tree the graph is one
node and no edges. -/
theorem treeToGraph_counts_spec_witness :
    ((GraphLink.mk "root" "a").source
        ∈ (treeToGraph deepFileTree).nodes.map GraphNode.id
      ∧ (GraphLink.mk "root" "a").target
        ∈ (treeToGraph deepFileTree).nodes.map GraphNode.id)
  ∧ ((treeToGraph rootOnlyTree).nodes.length = 1
      ∧ (treeToGraph rootOnlyTree).links = []) := by
  refine ⟨(treeToGraph_counts_spec deepFileTree).2.2.1 ⟨"root", "a"⟩
      (by decide),
    (treeToGraph_counts_spec rootOnlyTree).2.2.2 (Or.inr rfl)⟩

/-- C6 counterexample: in the four-level sample tree the file
`a/b/c/d.ts` sits at depth 4 > `maxDepth` = 3, yet it appears in the
produced node list — nodes beyond the depth bound are only dropped when
they are folders, not regardless of type. -/
theorem treeToGraph_depth_counterexample :
    (¬ ∀ gn ∈ (treeToGraph deepFileTree).nodes, gn.depth ≤ 3)
  ∧ (((treeToGraph deepFileTree).nodes.filter
        (fun g => 3 < g.depth)).map GraphNode.path = ["a/b/c/d.ts"]) := by
  constructor
  · decide
  · rfl

/-- C6 amended: the depth cutoff applies to folders only, so for every
tree satisfying the data-model invariant that files have no `children`,
every folder in the produced node list has depth ≤ `maxDepth` = 3 and
every node (file or folder) has depth ≤ `maxDepth` + 1 = 4; files at
depth exactly 4 may be included. -/
theorem treeToGraph_depth_bound_spec (t : FileNode)
    (h : filesChildless t = true) :
    ∀ gn ∈ (treeToGraph t).nodes,
      (gn.ntype = .folder → gn.depth ≤ 3) ∧ gn.depth ≤ 4 := by
  intro gn hgn
  have hres := traverse_depth_bound 3 150 t 0 none ⟨[], []⟩ h (by omega)
    gn hgn
  rcases hres with hmem | hok
  · cases hmem
  · exact hok

/-- C6 witness: the sample tree satisfies the invariant, and the theorem
applies to its root node. -/
theorem treeToGraph_depth_bound_spec_witness :
    filesChildless deepFileTree = true
  ∧ ((rootGraphNode.ntype = .folder → rootGraphNode.depth ≤ 3)
      ∧ rootGraphNode.depth ≤ 4) :=
  ⟨rfl, treeToGraph_depth_bound_spec deepFileTree rfl rootGraphNode
    (by decide)⟩

/-- C4: with the current question in range, a non-skip answer equal to
`correctAnswer` adds the question's points to the durable `totalXP` and
increments `currentStreak`; any other non-skip answer leaves `totalXP`
unchanged and resets `currentStreak` to 0; the skip sentinel leaves the
durable store untouched entirely.  The sentinel hypothesis keeps "answer
equals `correctAnswer`" and "skip" disjoint, as they are in the UI (the
skip button is the only source of `"__SKIP__"`). -/
theorem handleChallengeAnswer_scoring_spec (ms : ChallengeModalState)
    (kv : Storage) (today : String) (ch : Challenge)
    (hch : ms.challenges.get? ms.currentIndex = some ch)
    (hsent : ch.correctAnswer ≠ "__SKIP__") :
    ((getUserProgress
          (handleChallengeAnswer ch.correctAnswer today ms kv).2).totalXP
        = (getUserProgress kv).totalXP + ch.points
      ∧ (getUserProgress
          (handleChallengeAnswer ch.correctAnswer today ms kv).2).currentStreak
        = (getUserProgress kv).currentStreak + 1)
  ∧ (∀ s, s ≠ ch.correctAnswer → s ≠ "__SKIP__" →
      (getUserProgress (handleChallengeAnswer s today ms kv).2).totalXP
          = (getUserProgress kv).totalXP
      ∧ (getUserProgress
          (handleChallengeAnswer s today ms kv).2).currentStreak = 0)
  ∧ ((handleChallengeAnswer "__SKIP__" today ms kv).2 = kv) := by
  refine ⟨?_, ?_, ?_⟩
  · unfold handleChallengeAnswer
    rw [hch]
    simp only [beq_self_eq_true, Bool.and_true]
    have hskip : (ch.correctAnswer == "__SKIP__") = false := by
      simpa using hsent
    rw [hskip]
    simp only [Bool.not_false, Bool.and_self, if_pos rfl, ite_true,
      Bool.true_and]
    rw [getUserProgress_addXP]
    constructor
    · simp [addXPProgress, apply_ite (f := UserProgress.totalXP)]
    · simp [addXPProgress, apply_ite (f := UserProgress.currentStreak)]
  · intro s hne hns
    unfold handleChallengeAnswer
    rw [hch]
    have hskip : (s == "__SKIP__") = false := by simpa using hns
    have hwrong : (s == ch.correctAnswer) = false := by simpa using hne
    simp [hskip, hwrong, getUserProgress_addXP, addXPProgress]
  · unfold handleChallengeAnswer
    rw [hch]
    simp

/-- C4 witness: a 25-point question with correct answer `"B"`:
answering `"B"` yields +25 XP and streak 1, answering `"A"` yields +0 XP
and streak 0, skipping leaves the store untouched. -/
theorem handleChallengeAnswer_scoring_spec_witness :
    ((getUserProgress (handleChallengeAnswer "B" "2026-10-12"
          { challenges := [{ id := "q1", ctype := .multiple_choice
                             question := "?", options := ["A", "B"]
                             correctAnswer := "B", explanation := "e"
                             points := 25 }]
            currentIndex := 0, results := [] } []).2).totalXP
        = (getUserProgress []).totalXP + 25
      ∧ (getUserProgress (handleChallengeAnswer "B" "2026-10-12"
          { challenges := [{ id := "q1", ctype := .multiple_choice
                             question := "?", options := ["A", "B"]
                             correctAnswer := "B", explanation := "e"
                             points := 25 }]
            currentIndex := 0, results := [] } []).2).currentStreak
        = (getUserProgress []).currentStreak + 1)
  ∧ ((getUserProgress (handleChallengeAnswer "A" "2026-10-12"
          { challenges := [{ id := "q1", ctype := .multiple_choice
                             question := "?", options := ["A", "B"]
                             correctAnswer := "B", explanation := "e"
                             points := 25 }]
            currentIndex := 0, results := [] } []).2).totalXP
        = (getUserProgress []).totalXP
      ∧ (getUserProgress (handleChallengeAnswer "A" "2026-10-12"
          { challenges := [{ id := "q1", ctype := .multiple_choice
                             question := "?", options := ["A", "B"]
                             correctAnswer := "B", explanation := "e"
                             points := 25 }]
            currentIndex := 0, results := [] } []).2).currentStreak = 0)
  ∧ ((handleChallengeAnswer "__SKIP__" "2026-10-12"
          { challenges := [{ id := "q1", ctype := .multiple_choice
                             question := "?", options := ["A", "B"]
                             correctAnswer := "B", explanation := "e"
                             points := 25 }]
            currentIndex := 0, results := [] } []).2 = []) := by
  have h := handleChallengeAnswer_scoring_spec
    { challenges := [{ id := "q1", ctype := .multiple_choice
                       question := "?", options := ["A", "B"]
                       correctAnswer := "B", explanation := "e"
                       points := 25 }]
      currentIndex := 0, results := [] } [] "2026-10-12"
    { id := "q1", ctype := .multiple_choice, question := "?"
      options := ["A", "B"], correctAnswer := "B", explanation := "e"
      points := 25 } rfl (by decide)
  exact ⟨h.1, h.2.1 "A" (by decide) (by decide), h.2.2⟩

/-- C5: a completed challenge session — every question answered or
skipped, then the Results screen — bumps the durable
`challengesCompleted` by exactly 1, whatever the answers were. -/
theorem completeChallengeSession_spec (qs : List Challenge)
    (answers : List String) (today : String) (kv : Storage)
    (_hlen : answers.length = qs.length) :
    (getUserProgress
        (runChallengeSession qs answers today kv)).challengesCompleted
      = (getUserProgress kv).challengesCompleted + 1 := by
  unfold runChallengeSession
  simp [completeChallengeSet, getUserProgress_save,
    runChallengeAnswers_challengesCompleted]

/-- C5 witness: a two-question set answered with one wrong answer and one
skip still counts as exactly one completed set. -/
theorem completeChallengeSession_spec_witness :
    (getUserProgress
        (runChallengeSession
          [{ id := "q1", ctype := .multiple_choice, question := "?"
             options := ["A", "B"], correctAnswer := "B"
             explanation := "e", points := 25 },
           { id := "q2", ctype := .true_false, question := "??"
             options := ["True", "False"], correctAnswer := "True"
             explanation := "e2", points := 10 }]
          ["A", "__SKIP__"] "2026-10-12" [])).challengesCompleted
      = (getUserProgress []).challengesCompleted + 1 :=
  completeChallengeSession_spec
    [{ id := "q1", ctype := .multiple_choice, question := "?"
       options := ["A", "B"], correctAnswer := "B"
       explanation := "e", points := 25 },
     { id := "q2", ctype := .true_false, question := "??"
       options := ["True", "False"], correctAnswer := "True"
       explanation := "e2", points := 10 }]
    ["A", "__SKIP__"] "2026-10-12" [] rfl

/-- C9: the durable-cache readers are total functions (they never throw),
and a missing or unparseable blob makes `getUserProgress` return the
all-zero default record and makes both cache lookups return `null`,
exactly as on a miss. -/
theorem durable_reads_swallow_corruption_spec (kv : Storage)
    (repoName : String) (idx : Nat) (now : Int) :
    ((kv.getItem PROGRESS_KEY = none
        ∨ kv.getItem PROGRESS_KEY = some .corrupt) →
      getUserProgress kv = DEFAULT_PROGRESS)
  ∧ ((kv.getItem (challengesCacheKey repoName idx) = none
        ∨ kv.getItem (challengesCacheKey repoName idx) = some .corrupt) →
      getCachedChallenges repoName idx now kv = none)
  ∧ ((kv.getItem (learningPathKey repoName) = none
        ∨ kv.getItem (learningPathKey repoName) = some .corrupt) →
      getSavedLearningPath repoName kv = none) := by
  refine ⟨?_, ?_, ?_⟩ <;> rintro (h | h) <;>
    simp [getUserProgress, getCachedChallenges, getSavedLearningPath, h,
      jsonParse]

/-- C9 witness: a store whose three entries are all unparseable behaves
exactly like an empty store for all three readers. -/
theorem durable_reads_swallow_corruption_spec_witness :
    (getUserProgress
        [(PROGRESS_KEY, .corrupt),
         (challengesCacheKey "acme/widgets" 0, .corrupt),
         (learningPathKey "acme/widgets", .corrupt)] = DEFAULT_PROGRESS)
  ∧ (getCachedChallenges "acme/widgets" 0 1000
        [(PROGRESS_KEY, .corrupt),
         (challengesCacheKey "acme/widgets" 0, .corrupt),
         (learningPathKey "acme/widgets", .corrupt)] = none)
  ∧ (getSavedLearningPath "acme/widgets"
        [(PROGRESS_KEY, .corrupt),
         (challengesCacheKey "acme/widgets" 0, .corrupt),
         (learningPathKey "acme/widgets", .corrupt)] = none) := by
  have h := durable_reads_swallow_corruption_spec
    [(PROGRESS_KEY, .corrupt),
     (challengesCacheKey "acme/widgets" 0, .corrupt),
     (learningPathKey "acme/widgets", .corrupt)]
    "acme/widgets" 0 1000
  exact ⟨h.1 (Or.inr rfl), h.2.1 (Or.inr rfl), h.2.2 (Or.inr rfl)⟩

theorem decodeList_map {β : Type} (f : Json → Option β) (g : β → Json)
    (h : ∀ x, f (g x) = some x) (l : List β) :
    decodeList f (l.map g) = some l := by
  induction l with
  | nil => rfl
  | cons x rest ih => simp [decodeList, h, ih]

theorem decodeStrList_encodeStrList (xs : List String) :
    decodeStrList (encodeStrList xs) = some xs := by
  simpa [encodeStrList, decodeStrList] using
    decodeList_map Json.asStr Json.str (fun _ => rfl) xs

theorem decodeDifficulty_encodeDifficulty (d : Difficulty) :
    decodeDifficulty (encodeDifficulty d) = some d := by
  cases d <;> rfl

theorem decodeModule_encodeModule (m : LearningModule) :
    decodeModule (encodeModule m) = some m := by
  simp [decodeModule, encodeModule, Json.getStrField, Json.getIntField,
    Json.getField, List.find?, decodeStrList_encodeStrList]

theorem decodeProject_encodeProject (p : LearningProject) :
    decodeProject (encodeProject p) = some p := by
  simp [decodeProject, encodeProject, Json.getStrField, Json.getField,
    List.find?, decodeDifficulty_encodeDifficulty]

theorem decodeModuleList_encode (ms : List LearningModule) :
    decodeModuleList (.arr (ms.map encodeModule)) = some ms := by
  simpa [decodeModuleList] using
    decodeList_map decodeModule encodeModule decodeModule_encodeModule ms

theorem decodeProjectList_encode (ps : List LearningProject) :
    decodeProjectList (.arr (ps.map encodeProject)) = some ps := by
  simpa [decodeProjectList] using
    decodeList_map decodeProject encodeProject decodeProject_encodeProject ps

theorem decodeLearningPath_encodeLearningPath (p : LearningPath) :
    decodeLearningPath (encodeLearningPath p) = some p := by
  simp [decodeLearningPath, encodeLearningPath, Json.getStrField,
    Json.getField, List.find?, decodeStrList_encodeStrList,
    decodeModuleList_encode, decodeProjectList_encode]

/-- C8: saving a learning path for a repository and reading the same
repository's key back yields exactly the serialized document that was
stored, and that document decodes to a `LearningPath` deep-equal to the
original — the JSON round-trip loses nothing. -/
theorem learningPath_cache_roundtrip_spec (repoName : String)
    (path : LearningPath) (kv : Storage) :
    getSavedLearningPath repoName (saveLearningPath repoName path kv)
      = some (encodeLearningPath path)
  ∧ decodeLearningPath (encodeLearningPath path) = some path := by
  constructor
  · simp [getSavedLearningPath, saveLearningPath, Storage.getItem,
      Storage.setItem, jsonParse, jsonStringify, List.find?]
  · exact decodeLearningPath_encodeLearningPath path

/-- C10: starting from well-formed durable progress, both mutators keep it
well-formed (streak below high-water mark, correct ≤ total, all counters
non-negative), and `addXP` bumps `totalAnswers` by exactly 1 and
`correctAnswers` exactly when the answer was correct. -/
theorem progress_mutators_invariant_spec (kv : Storage) (pts : Int)
    (c : Bool) (today : String) (hpts : 0 ≤ pts)
    (hinv : ProgressInv (getUserProgress kv)) :
    ProgressInv (addXP pts c today kv).1
  ∧ (addXP pts c today kv).1.totalAnswers
      = (getUserProgress kv).totalAnswers + 1
  ∧ (addXP pts c today kv).1.correctAnswers
      = (getUserProgress kv).correctAnswers + (if c then 1 else 0)
  ∧ ProgressInv (completeChallengeSet kv).1 := by
  obtain ⟨h1, h2, h3, h4, h5, h6, h7, h8⟩ := hinv
  refine ⟨?_, ?_, ?_, ?_⟩
  · unfold addXP addXPProgress ProgressInv
    cases c <;> simp <;> (try split_ifs) <;> (try dsimp only) <;> omega
  · cases c <;>
      simp [addXP, addXPProgress, apply_ite (f := UserProgress.totalAnswers)]
  · cases c <;>
      simp [addXP, addXPProgress,
        apply_ite (f := UserProgress.correctAnswers)]
  · unfold completeChallengeSet ProgressInv
    simp
    omega

/-- C10 witness: the empty store satisfies the invariant and a correct
25-point answer preserves it. -/
theorem progress_mutators_invariant_spec_witness :
    ProgressInv (addXP 25 true "2026-10-12" []).1
  ∧ (addXP 25 true "2026-10-12" []).1.totalAnswers
      = (getUserProgress []).totalAnswers + 1
  ∧ (addXP 25 true "2026-10-12" []).1.correctAnswers
      = (getUserProgress []).correctAnswers + (if true then 1 else 0)
  ∧ ProgressInv (completeChallengeSet []).1 :=
  progress_mutators_invariant_spec [] 25 true "2026-10-12" (by decide)
    (by decide)

end RepoX
